import Mathlib

/-!
Verification of the fs-repo-migrations migration-step engine.

This file gives a shallow embedding of the migration steps of the
repository: the 8-to-9 migration (`mg8`, from
`ipfs-8-to-9/migration/migration.go`) and the 1-to-2 migration
(`mg1`, from `ipfs-1-to-2/migration/migration.go`).

Keys, values and backup-file lines are modelled as lists of characters
(Go strings).  A datastore is an association list; `Get`, `Put` and
`Delete` follow the store contract.  External collaborators whose
implementation is not part of the analysed sources (the repo lock, the
version marker, the OS file operations, the datastore opener) are
modelled through explicit failure-injection flags in an environment
record, and each step additionally records a trace of events so that
ordering properties (lock discipline, log-before-commit) can be stated.
-/

abbrev Key := List Char

abbrev Val := List Char

abbrev Line := List Char

/-- A swap record: (old key, new key). -/
abbrev Swap := Key × Key

/-- A datastore: an association list from keys to values. -/
abbrev Store := List (Key × Val)

/-- Get: the value stored at `k`, if any (first binding wins). -/
def Store.get : Store → Key → Option Val
  | [], _ => none
  | p :: s, k => if p.1 = k then some p.2 else Store.get s k

/-- Delete: remove every binding of `k`; deleting an absent key is a no-op. -/
def Store.delete : Store → Key → Store
  | [], _ => []
  | p :: s, k => if p.1 = k then Store.delete s k else p :: Store.delete s k

/-- Put: overwrite the binding of `k` with `v`. -/
def Store.put (s : Store) (k : Key) (v : Val) : Store :=
  (k, v) :: Store.delete s k

theorem Store.get_delete_self (s : Store) (k : Key) :
    (s.delete k).get k = none := by
  induction s with
  | nil => rfl
  | cons p s ih =>
    by_cases h : p.1 = k <;> simp [Store.delete, Store.get, h, ih]

theorem Store.get_delete_ne (s : Store) (k x : Key) (h : x ≠ k) :
    (s.delete k).get x = s.get x := by
  induction s with
  | nil => rfl
  | cons p s ih =>
    have hkx : ¬k = x := fun hc => h hc.symm
    by_cases hp : p.1 = k
    · simp [Store.delete, Store.get, hp, hkx, ih]
    · by_cases hx : p.1 = x <;> simp [Store.delete, Store.get, hp, hx, h, hkx, ih]

theorem Store.get_put_self (s : Store) (k : Key) (v : Val) :
    (s.put k v).get k = some v := by
  simp [Store.put, Store.get]

theorem Store.get_put_ne (s : Store) (k x : Key) (v : Val) (h : x ≠ k) :
    (s.put k v).get x = s.get x := by
  have hk : k ≠ x := fun hc => h hc.symm
  simp [Store.put, Store.get, hk, Store.get_delete_ne s k x h]

theorem Store.get_ne_none_of_mem (s : Store) (k : Key)
    (h : k ∈ s.map Prod.fst) : s.get k ≠ none := by
  induction s with
  | nil => simp at h
  | cons p s ih =>
    simp only [List.map_cons, List.mem_cons] at h
    by_cases hp : p.1 = k
    · simp [Store.get, hp]
    · rcases h with h | h
      · exact absurd h.symm hp
      · simp [Store.get, hp, ih h]

theorem Store.mem_of_get_eq_some (s : Store) (k : Key) (v : Val)
    (h : s.get k = some v) : k ∈ s.map Prod.fst := by
  induction s with
  | nil => simp [Store.get] at h
  | cons p s ih =>
    simp only [Store.get] at h
    by_cases hp : p.1 = k
    · simp [hp]
    · simp only [hp, if_false] at h
      simp [ih h]

/-!
Backup-file lines.

Apply's writer emits the textual line `old ++ "," ++ new` for every swap
(`migration.go`, `fmt.Fprint(buf, sw.Old.String()+","+sw.New.String()+"\n")`);
Revert splits each scanned line on `","` and skips it when the number of
fields is not 2 (`strings.Split` / `len(oldAndNew) != 2`).  `splitOnComma`
mirrors Go's `strings.Split(line, ",")` for the one-character separator.
Key construction (`ds.NewKey`) is modelled as the identity, since the keys
written by Apply come from the store already in normalized form.
-/

def splitOnComma : Line → List Line
  | [] => [[]]
  | c :: cs =>
    if c = ',' then [] :: splitOnComma cs
    else
      match splitOnComma cs with
      | [] => [[c]]
      | g :: gs => (c :: g) :: gs

def serializeSwap (s : Swap) : Line := s.1 ++ ',' :: s.2

def parseLine (l : Line) : Option Swap :=
  match splitOnComma l with
  | [a, b] => some (a, b)
  | _ => none

theorem splitOnComma_ne_nil (l : Line) : splitOnComma l ≠ [] := by
  induction l with
  | nil => simp [splitOnComma]
  | cons c cs ih =>
    by_cases h : c = ','
    · simp [splitOnComma, h]
    · simp only [splitOnComma, h, if_false]
      cases hs : splitOnComma cs <;> simp

theorem splitOnComma_no_comma (l : Line) (h : ',' ∉ l) :
    splitOnComma l = [l] := by
  induction l with
  | nil => rfl
  | cons c cs ih =>
    simp only [List.mem_cons, not_or] at h
    have hc : ¬c = ',' := fun hc => h.1 hc.symm
    simp [splitOnComma, hc, ih h.2]

theorem splitOnComma_append (a b : Line) (h : ',' ∉ a) :
    splitOnComma (a ++ ',' :: b) = a :: splitOnComma b := by
  induction a with
  | nil => simp [splitOnComma]
  | cons c cs ih =>
    simp only [List.mem_cons, not_or] at h
    have hc : ¬c = ',' := fun hc => h.1 hc.symm
    simp [splitOnComma, hc, ih h.2]

theorem parseLine_serializeSwap (o n : Key) (ho : ',' ∉ o) (hn : ',' ∉ n) :
    parseLine (serializeSwap (o, n)) = some (o, n) := by
  simp [parseLine, serializeSwap, splitOnComma_append o n ho,
    splitOnComma_no_comma n hn]

/-!
The CID swapper (KeyTransformPipeline).

Modelled from the spec: the `CidSwapper` type used by the 8-to-9
migration (`cidSwapper.Run` and `cidSwapper.Revert`) is not among the
analysed source files; spec §4.3 gives its contract.  `Run` re-keys every
enumerated entry through a pure mapping (which may designate a key as a
no-op, or fail), performing `Get` old / `Put` new / `Delete` old and
emitting the `(old, new)` swap; any per-key failure aborts the run.
`Revert` consumes swap records and applies the inverse swap: `Get` at
NewKey, `Put` at OldKey, `Delete` at NewKey, any failure aborting.
The concurrent pipeline is linearized: records are listed in emission
order.
-/

inductive TransformResult where
  | skip : TransformResult
  | moveTo : Key → TransformResult
  | fail : TransformResult
deriving DecidableEq

/-- Modelled from the spec: one `Run` of the `CidSwapper` over the listed
keys; returns the final store, the emitted swaps in order, and the error
if a per-key step failed (partial mutations and partial records remain). -/
def runSwaps (f : Key → TransformResult) : Store → List Key → Store × List Swap × Option Unit
  | st, [] => (st, [], none)
  | st, k :: ks =>
    match f k with
    | .fail => (st, [], some ())
    | .skip => runSwaps f st ks
    | .moveTo n =>
      match st.get k with
      | none => (st, [], some ())
      | some v =>
        let r := runSwaps f ((st.delete k).put n v) ks
        (r.1, (k, n) :: r.2.1, r.2.2)

/-- Modelled from the spec: `CidSwapper.Revert` over a list of swap
records; returns the final store, the successfully applied swaps in
order, and the error if an inverse swap failed. -/
def revertSwaps : Store → List Swap → Store × List Swap × Option Unit
  | st, [] => (st, [], none)
  | st, (o, n) :: rest =>
    match st.get n with
    | none => (st, [], some ())
    | some v =>
      let r := revertSwaps ((st.delete n).put o v) rest
      (r.1, (o, n) :: r.2.1, r.2.2)

/-- The swap that `runSwaps` emits for key `k`, if any. -/
def swapOf (f : Key → TransformResult) (k : Key) : Option Swap :=
  match f k with
  | .moveTo n => some (k, n)
  | _ => none

/-- The swaps a successful run over `ks` emits. -/
def moves (f : Key → TransformResult) (ks : List Key) : List Swap :=
  ks.filterMap (swapOf f)

theorem revertSwaps_applied_of_ok (sws : List Swap) (st : Store)
    (h : (revertSwaps st sws).2.2 = none) : (revertSwaps st sws).2.1 = sws := by
  induction sws generalizing st with
  | nil => rfl
  | cons p rest ih =>
    obtain ⟨o, n⟩ := p
    simp only [revertSwaps] at h ⊢
    cases hg : st.get n with
    | none => simp [hg] at h
    | some v =>
      simp only [hg] at h ⊢
      simpa using ih ((st.delete n).put o v) (by simpa using h)

/-!
Errors, events and the environment.

The error taxonomy follows spec §7.  Events trace a step's externally
visible actions in program order, linearizing the concurrent parts
(backup records in emission order; Revert's warnings before its swaps).
External collaborators not implemented in the analysed sources (the repo
lock `lock.Lock2`, the version marker `mfsr.RepoPath`
`CheckVersion`/`WriteVersion`, the datastore opener, the OS file calls)
are modelled from the spec through failure-injection flags in `Env`.
-/

inductive MigErr where
  | lockError : MigErr
  | versionMismatch : MigErr
  | storeOpenError : MigErr
  | statError : MigErr
  | backupOpenError : MigErr
  | transformError : MigErr
  | versionWriteError : MigErr
  | closeError : MigErr
  | sanityError : MigErr
  | mkdirError : MigErr
  | renameError : MigErr
deriving DecidableEq

inductive Event where
  | lockAcquired : Event
  | lockReleased : Event
  | versionChecked : String → Event
  | storeOpened : Event
  | backupOpened : Event
  | recordWritten : Key → Key → Event
  | backupFlushed : Event
  | lineWarned : Line → Event
  | swapReverted : Key → Key → Event
  | versionWritten : String → Event
  | backupDeleted : Event
deriving DecidableEq

/-- Strict trace order: `a` occurs in `tr` strictly before `b` does. -/
def occursBefore (a b : Event) (tr : List Event) : Prop :=
  a ∈ tr ∧ b ∈ tr ∧ tr.indexOf a < tr.indexOf b

instance (a b : Event) (tr : List Event) : Decidable (occursBefore a b tr) :=
  decidable_of_iff (a ∈ tr ∧ b ∈ tr ∧ tr.indexOf a < tr.indexOf b) Iff.rfl

theorem occursBefore_append (a b : Event) (l₁ l₂ : List Event)
    (ha : a ∈ l₁) (hb₁ : b ∉ l₁) (hb₂ : b ∈ l₂) :
    occursBefore a b (l₁ ++ l₂) := by
  refine ⟨List.mem_append_left _ ha, List.mem_append_right _ hb₂, ?_⟩
  have h₁ : (l₁ ++ l₂).indexOf a < l₁.length := by
    rw [List.indexOf_append_of_mem ha]
    exact List.indexOf_lt_length.mpr ha
  have h₂ : l₁.length ≤ (l₁ ++ l₂).indexOf b := by
    rw [List.indexOf_append_of_not_mem hb₁]
    exact Nat.le_add_right _ _
  exact Nat.lt_of_lt_of_le h₁ h₂

/-- Failure-injection flags for the external collaborators of a step.
Modelled from the spec: `lockBusy` (another process holds the repo
lock), `storeOpenFails` (plugin/config/datastore construction),
`statFails` (the `os.Stat` of the backup path fails other than with
not-exist), `backupOpenFails` (`os.OpenFile`/`os.Open` of the backup
file), `versionWriteFails` (`repo.WriteVersion`), `backupCloseFails`
(`f.Close` in Revert), `backupRemoveFails` (`os.Remove` in Revert),
`readErrorAfter` (the backup scanner hits a read error after delivering
that many lines). -/
structure Env where
  lockBusy : Bool
  storeOpenFails : Bool
  statFails : Bool
  backupOpenFails : Bool
  versionWriteFails : Bool
  backupCloseFails : Bool
  backupRemoveFails : Bool
  readErrorAfter : Option Nat
deriving DecidableEq

def benignEnv : Env :=
  ⟨false, false, false, false, false, false, false, none⟩

/-- The repo state an 8-to-9 step sees: the persisted version marker, the
contents of the `/blocks` namespace of the datastore, and the backup
artifact `8-to-9-cids.txt` (`none` when the file does not exist). -/
structure Repo where
  version : String
  blocks : Store
  backup : Option (List Line)
deriving DecidableEq

structure StepResult where
  repo : Repo
  err : Option MigErr
  trace : List Event
deriving DecidableEq

/-- The 8-to-9 `Migration.Apply` (`ipfs-8-to-9/migration/migration.go`):
lock, check version "8", open the store, stat/open the backup file in
append mode, run the CID swapper while the writer goroutine appends one
line per swap, await the writer, write version "9".  The buffered
writer's `Flush` is deferred, so it runs when Apply returns — after the
version write on the success path; the deferred flush also runs on the
error paths reached after the writer was set up. -/
def mg8Apply (f : Key → TransformResult) (env : Env) (r : Repo) : StepResult :=
  if env.lockBusy then ⟨r, some .lockError, []⟩
  else if r.version = "8" then
    if env.storeOpenFails then
      ⟨r, some .storeOpenError, [.lockAcquired, .versionChecked "8", .lockReleased]⟩
    else if env.statFails then
      ⟨r, some .statError,
        [.lockAcquired, .versionChecked "8", .storeOpened, .lockReleased]⟩
    else if env.backupOpenFails then
      ⟨r, some .backupOpenError,
        [.lockAcquired, .versionChecked "8", .storeOpened, .lockReleased]⟩
    else
      let prior := r.backup.getD []
      let res := runSwaps f r.blocks (r.blocks.map Prod.fst)
      let newBackup := some (prior ++ res.2.1.map serializeSwap)
      let pre := [Event.lockAcquired, Event.versionChecked "8",
        Event.storeOpened, Event.backupOpened] ++
        res.2.1.map (fun s => Event.recordWritten s.1 s.2)
      match res.2.2 with
      | some _ =>
        ⟨⟨r.version, res.1, newBackup⟩, some .transformError,
          pre ++ [.backupFlushed, .lockReleased]⟩
      | none =>
        if env.versionWriteFails then
          ⟨⟨r.version, res.1, newBackup⟩, some .versionWriteError,
            pre ++ [.backupFlushed, .lockReleased]⟩
        else
          ⟨⟨"9", res.1, newBackup⟩, none,
            pre ++ [.versionWritten "9", .backupFlushed, .lockReleased]⟩
  else ⟨r, some .versionMismatch, [.lockAcquired, .lockReleased]⟩

/-- The 8-to-9 `Migration.Revert` (`ipfs-8-to-9/migration/migration.go`):
lock, check version "9", open the store, open the backup file, scan it
line by line into swap records — skipping with a warning every line that
does not split on comma into exactly two fields, and stopping early
(channel closed, error only logged) on a scanner read error — apply the
inverse swaps, write version "8", close the backup file, and delete it;
a failed delete is only logged and Revert still returns success. -/
def mg8Revert (env : Env) (r : Repo) : StepResult :=
  if env.lockBusy then ⟨r, some .lockError, []⟩
  else if r.version = "9" then
    if env.storeOpenFails then
      ⟨r, some .storeOpenError, [.lockAcquired, .versionChecked "9", .lockReleased]⟩
    else
      match r.backup with
      | none =>
        ⟨r, some .backupOpenError,
          [.lockAcquired, .versionChecked "9", .storeOpened, .lockReleased]⟩
      | some lines =>
        if env.backupOpenFails then
          ⟨r, some .backupOpenError,
            [.lockAcquired, .versionChecked "9", .storeOpened, .lockReleased]⟩
        else
          let effLines := match env.readErrorAfter with
            | some nr => lines.take nr
            | none => lines
          let res := revertSwaps r.blocks (effLines.filterMap parseLine)
          let pre := [Event.lockAcquired, Event.versionChecked "9",
            Event.storeOpened, Event.backupOpened] ++
            (effLines.filter (fun l => (parseLine l).isNone)).map Event.lineWarned ++
            res.2.1.map (fun s => Event.swapReverted s.1 s.2)
          match res.2.2 with
          | some _ =>
            ⟨⟨r.version, res.1, r.backup⟩, some .transformError,
              pre ++ [.lockReleased]⟩
          | none =>
            if env.versionWriteFails then
              ⟨⟨r.version, res.1, r.backup⟩, some .versionWriteError,
                pre ++ [.lockReleased]⟩
            else if env.backupCloseFails then
              ⟨⟨"8", res.1, r.backup⟩, some .closeError,
                pre ++ [.versionWritten "8", .lockReleased]⟩
            else if env.backupRemoveFails then
              ⟨⟨"8", res.1, r.backup⟩, none,
                pre ++ [.versionWritten "8", .lockReleased]⟩
            else
              ⟨⟨"8", res.1, none⟩, none,
                pre ++ [.versionWritten "8", .backupDeleted, .lockReleased]⟩
  else ⟨r, some .versionMismatch, [.lockAcquired, .lockReleased]⟩

/-!
The 1-to-2 migration (`ipfs-1-to-2/migration/migration.go`).

`transferBlocks(from, to, fpref, tpref)` queries the source store for
the keys under `fpref` (keys only) and, for each result key, computes
`nkey = tpref + key[len(fpref):]`, `Get`s the value from the source,
`Put`s it into the destination under `nkey` and `Delete`s the source
key; the first failing operation aborts.  `Migration.Apply` checks
version "1", runs sanity checks, transfers `"/b/" → ""` from the
leveldb store to the flatfs store, renames the repo directory and
writes version "2" — it acquires no repo lock.  `Migration.Revert`
symmetrically checks version "2", renames back, transfers `"" → "/b/"`
from flatfs to leveldb, removes the blocks directory and writes
version "1".
-/

def transferLoop (fpref tpref : Key) :
    Store → Store → List Key → Store × Store × Option MigErr
  | src, dst, [] => (src, dst, none)
  | src, dst, k :: ks =>
    match src.get k with
    | none => (src, dst, some .transformError)
    | some v =>
      transferLoop fpref tpref (src.delete k)
        (dst.put (tpref ++ k.drop fpref.length) v) ks

def transferBlocks (src dst : Store) (fpref tpref : Key) :
    Store × Store × Option MigErr :=
  transferLoop fpref tpref src dst
    ((src.map Prod.fst).filter (fun k => fpref.isPrefixOf k))

/-- The repo state the 1-to-2 step sees: version marker, the leveldb
`datastore` contents and the flatfs `blocks` contents. -/
structure Mg1Repo where
  version : String
  ldb : Store
  flat : Store
deriving DecidableEq

/-- Modelled from the spec: failure flags for the external collaborators
of the 1-to-2 step (sanity mkdir/remove probe, store constructors,
`os.Mkdir`, `os.Rename`, `repo.WriteVersion`). -/
structure Mg1Env where
  sanityFails : Bool
  ldbOpenFails : Bool
  mkdirFails : Bool
  flatOpenFails : Bool
  renameFails : Bool
  versionWriteFails : Bool
deriving DecidableEq

structure Mg1Result where
  repo : Mg1Repo
  err : Option MigErr
  trace : List Event
deriving DecidableEq

def benignMg1Env : Mg1Env := ⟨false, false, false, false, false, false⟩

/-- The 1-to-2 `Migration.Apply`: no repo lock is taken; check version
"1", sanity checks, transfer blocks `"/b/" → ""` from leveldb to
flatfs, rename the repo directory, write version "2". -/
def mg1Apply (env : Mg1Env) (r : Mg1Repo) : Mg1Result :=
  if r.version = "1" then
    if env.sanityFails then ⟨r, some .sanityError, [.versionChecked "1"]⟩
    else if env.ldbOpenFails then ⟨r, some .storeOpenError, [.versionChecked "1"]⟩
    else if env.mkdirFails then ⟨r, some .mkdirError, [.versionChecked "1"]⟩
    else if env.flatOpenFails then ⟨r, some .storeOpenError, [.versionChecked "1"]⟩
    else
      let t := transferBlocks r.ldb r.flat "/b/".toList "".toList
      match t.2.2 with
      | some e => ⟨⟨r.version, t.1, t.2.1⟩, some e, [.versionChecked "1"]⟩
      | none =>
        if env.renameFails then
          ⟨⟨r.version, t.1, t.2.1⟩, some .renameError, [.versionChecked "1"]⟩
        else if env.versionWriteFails then
          ⟨⟨r.version, t.1, t.2.1⟩, some .versionWriteError, [.versionChecked "1"]⟩
        else
          ⟨⟨"2", t.1, t.2.1⟩, none, [.versionChecked "1", .versionWritten "2"]⟩
  else ⟨r, some .versionMismatch, []⟩

/-- The 1-to-2 `Migration.Revert`: no repo lock is taken; check version
"2", rename the repo directory back, transfer blocks `"" → "/b/"` from
flatfs to leveldb, remove the blocks directory, write version "1". -/
def mg1Revert (env : Mg1Env) (r : Mg1Repo) : Mg1Result :=
  if r.version = "2" then
    if env.renameFails then ⟨r, some .renameError, [.versionChecked "2"]⟩
    else if env.flatOpenFails then ⟨r, some .storeOpenError, [.versionChecked "2"]⟩
    else if env.ldbOpenFails then ⟨r, some .storeOpenError, [.versionChecked "2"]⟩
    else
      let t := transferBlocks r.flat r.ldb "".toList "/b/".toList
      match t.2.2 with
      | some e => ⟨⟨r.version, t.2.1, t.1⟩, some e, [.versionChecked "2"]⟩
      | none =>
        if env.versionWriteFails then
          ⟨⟨r.version, t.2.1, []⟩, some .versionWriteError, [.versionChecked "2"]⟩
        else
          ⟨⟨"1", t.2.1, []⟩, none, [.versionChecked "2", .versionWritten "1"]⟩
  else ⟨r, some .versionMismatch, []⟩

/-!
Core lemmas about the swapper.
-/

theorem runSwaps_frame (f : Key → TransformResult) (ks : List Key) :
    ∀ (st : Store) (x : Key),
    (∀ k ∈ ks, k ≠ x ∧ ∀ n, f k = .moveTo n → n ≠ x) →
    (runSwaps f st ks).1.get x = st.get x := by
  induction ks with
  | nil => intro st x _; rfl
  | cons k ks ih =>
    intro st x h
    have hk := h k (List.mem_cons_self k ks)
    have hrest : ∀ j ∈ ks, j ≠ x ∧ ∀ n, f j = .moveTo n → n ≠ x :=
      fun j hj => h j (List.mem_cons_of_mem k hj)
    cases hf : f k with
    | fail => simp [runSwaps, hf]
    | skip => simp [runSwaps, hf, ih st x hrest]
    | moveTo n =>
      cases hg : st.get k with
      | none => simp [runSwaps, hf, hg]
      | some v =>
        have hxn : x ≠ n := fun hc => (hk.2 n hf) hc.symm
        have hxk : x ≠ k := fun hc => hk.1 hc.symm
        simp only [runSwaps, hf, hg]
        rw [ih ((st.delete k).put n v) x hrest,
          Store.get_put_ne _ _ _ _ hxn, Store.get_delete_ne _ _ _ hxk]

theorem revertSwaps_frame (sws : List Swap) :
    ∀ (st : Store) (x : Key),
    (∀ p ∈ sws, p.1 ≠ x ∧ p.2 ≠ x) →
    (revertSwaps st sws).1.get x = st.get x := by
  induction sws with
  | nil => intro st x _; rfl
  | cons p rest ih =>
    intro st x h
    obtain ⟨o, n⟩ := p
    have hp := h (o, n) (List.mem_cons_self _ rest)
    have hrest : ∀ q ∈ rest, q.1 ≠ x ∧ q.2 ≠ x :=
      fun q hq => h q (List.mem_cons_of_mem _ hq)
    cases hg : st.get n with
    | none => simp [revertSwaps, hg]
    | some v =>
      have hxo : x ≠ o := fun hc => hp.1 hc.symm
      have hxn : x ≠ n := fun hc => hp.2 hc.symm
      simp only [revertSwaps, hg]
      rw [ih ((st.delete n).put o v) x hrest,
        Store.get_put_ne _ _ _ _ hxo, Store.get_delete_ne _ _ _ hxn]

theorem revertSwaps_cong (sws : List Swap) :
    ∀ (st st' : Store),
    (∀ p ∈ sws, st.get p.1 = st'.get p.1 ∧ st.get p.2 = st'.get p.2) →
    (revertSwaps st sws).2.2 = (revertSwaps st' sws).2.2 ∧
    ∀ x, st.get x = st'.get x →
      (revertSwaps st sws).1.get x = (revertSwaps st' sws).1.get x := by
  induction sws with
  | nil => intro st st' _; exact ⟨rfl, fun x hx => hx⟩
  | cons p rest ih =>
    intro st st' h
    obtain ⟨o, n⟩ := p
    have hp := h (o, n) (List.mem_cons_self _ rest)
    have hn : st.get n = st'.get n := hp.2
    cases hg : st.get n with
    | none =>
      have hg' : st'.get n = none := hn ▸ hg
      constructor
      · simp [revertSwaps, hg, hg']
      · intro x hx
        simp only [revertSwaps, hg, hg']
        exact hx
    | some v =>
      have hg' : st'.get n = some v := hn ▸ hg
      have hstep : ∀ q ∈ rest,
          ((st.delete n).put o v).get q.1 = ((st'.delete n).put o v).get q.1 ∧
          ((st.delete n).put o v).get q.2 = ((st'.delete n).put o v).get q.2 := by
        intro q hq
        have hq' := h q (List.mem_cons_of_mem _ hq)
        constructor
        · by_cases h1 : q.1 = o
          · rw [h1, Store.get_put_self, Store.get_put_self]
          · rw [Store.get_put_ne _ _ _ _ h1, Store.get_put_ne _ _ _ _ h1]
            by_cases h2 : q.1 = n
            · rw [h2, Store.get_delete_self, Store.get_delete_self]
            · rw [Store.get_delete_ne _ _ _ h2, Store.get_delete_ne _ _ _ h2]
              exact hq'.1
        · by_cases h1 : q.2 = o
          · rw [h1, Store.get_put_self, Store.get_put_self]
          · rw [Store.get_put_ne _ _ _ _ h1, Store.get_put_ne _ _ _ _ h1]
            by_cases h2 : q.2 = n
            · rw [h2, Store.get_delete_self, Store.get_delete_self]
            · rw [Store.get_delete_ne _ _ _ h2, Store.get_delete_ne _ _ _ h2]
              exact hq'.2
      have hih := ih ((st.delete n).put o v) ((st'.delete n).put o v) hstep
      constructor
      · simp only [revertSwaps, hg, hg']
        exact hih.1
      · intro x hx
        simp only [revertSwaps, hg, hg']
        apply hih.2
        by_cases h1 : x = o
        · rw [h1, Store.get_put_self, Store.get_put_self]
        · rw [Store.get_put_ne _ _ _ _ h1, Store.get_put_ne _ _ _ _ h1]
          by_cases h2 : x = n
          · rw [h2, Store.get_delete_self, Store.get_delete_self]
          · rw [Store.get_delete_ne _ _ _ h2, Store.get_delete_ne _ _ _ h2]
            exact hx

theorem mem_moves (f : Key → TransformResult) (ks : List Key) (p : Swap) :
    p ∈ moves f ks ↔ p.1 ∈ ks ∧ f p.1 = .moveTo p.2 := by
  simp only [moves, List.mem_filterMap]
  constructor
  · rintro ⟨a, ha, hg⟩
    cases hf : f a with
    | skip => simp [swapOf, hf] at hg
    | fail => simp [swapOf, hf] at hg
    | moveTo n =>
      simp only [swapOf, hf, Option.some.injEq] at hg
      subst hg
      exact ⟨ha, hf⟩
  · rintro ⟨h1, h2⟩
    exact ⟨p.1, h1, by simp [swapOf, h2]⟩

theorem moves_cons_skip (f : Key → TransformResult) (k : Key) (ks : List Key)
    (hf : f k = .skip) : moves f (k :: ks) = moves f ks := by
  simp [moves, List.filterMap_cons, swapOf, hf]

theorem moves_cons_move (f : Key → TransformResult) (k n : Key) (ks : List Key)
    (hf : f k = .moveTo n) : moves f (k :: ks) = (k, n) :: moves f ks := by
  simp [moves, List.filterMap_cons, swapOf, hf]

/-- Core of the Apply/Revert round trip: a run over pairwise distinct
keys with a non-failing mapping whose targets are fresh and pairwise
distinct succeeds, emits exactly the expected swaps, and replaying the
inverse swaps in emission order restores every binding of the original
store. -/
theorem roundtrip_core (f : Key → TransformResult) (ks : List Key) :
    ∀ (st : Store),
    ks.Nodup →
    (∀ k ∈ ks, st.get k ≠ none) →
    (∀ k, k ∈ ks → ∀ n, f k = .moveTo n → st.get n = none) →
    (∀ k₁ k₂ n, k₁ ∈ ks → k₂ ∈ ks → f k₁ = .moveTo n → f k₂ = .moveTo n → k₁ = k₂) →
    (∀ k ∈ ks, f k ≠ .fail) →
    (runSwaps f st ks).2.2 = none ∧
    (runSwaps f st ks).2.1 = moves f ks ∧
    (revertSwaps (runSwaps f st ks).1 (moves f ks)).2.2 = none ∧
    ∀ x, (revertSwaps (runSwaps f st ks).1 (moves f ks)).1.get x = st.get x := by
  induction ks with
  | nil =>
    intro st _ _ _ _ _
    exact ⟨rfl, rfl, rfl, fun x => rfl⟩
  | cons k ks ih =>
    intro st hnd h2 h3 h4 h5
    have hkmem : k ∈ k :: ks := List.mem_cons_self k ks
    have hknotin : k ∉ ks := (List.nodup_cons.mp hnd).1
    have hndt : ks.Nodup := (List.nodup_cons.mp hnd).2
    cases hf : f k with
    | fail => exact absurd hf (h5 k hkmem)
    | skip =>
      have h2' : ∀ j ∈ ks, st.get j ≠ none :=
        fun j hj => h2 j (List.mem_cons_of_mem k hj)
      have h3' : ∀ j, j ∈ ks → ∀ m, f j = .moveTo m → st.get m = none :=
        fun j hj m hm => h3 j (List.mem_cons_of_mem k hj) m hm
      have h4' : ∀ j₁ j₂ m, j₁ ∈ ks → j₂ ∈ ks → f j₁ = .moveTo m → f j₂ = .moveTo m → j₁ = j₂ :=
        fun j₁ j₂ m hj₁ hj₂ ha hb =>
          h4 j₁ j₂ m (List.mem_cons_of_mem k hj₁) (List.mem_cons_of_mem k hj₂) ha hb
      have h5' : ∀ j ∈ ks, f j ≠ .fail :=
        fun j hj => h5 j (List.mem_cons_of_mem k hj)
      have hmv := moves_cons_skip f k ks hf
      have hrun : runSwaps f st (k :: ks) = runSwaps f st ks := by
        simp [runSwaps, hf]
      rw [hrun, hmv]
      exact ih st hndt h2' h3' h4' h5'
    | moveTo n =>
      cases hg : st.get k with
      | none => exact absurd hg (h2 k hkmem)
      | some v =>
        have hnfresh : st.get n = none := h3 k hkmem n hf
        have hkn : k ≠ n := fun hc => by
          rw [hc, hnfresh] at hg
          exact Option.noConfusion hg
        have hjn : ∀ j ∈ ks, j ≠ n := by
          intro j hj hc
          have := h2 j (List.mem_cons_of_mem k hj)
          rw [hc, hnfresh] at this
          exact this rfl
        have hjk : ∀ j ∈ ks, j ≠ k := fun j hj hc => hknotin (hc ▸ hj)
        have hmn : ∀ j m, j ∈ ks → f j = .moveTo m → m ≠ n := by
          intro j m hj hm hc
          subst hc
          exact (hjk j hj)
            (h4 j k m (List.mem_cons_of_mem k hj) hkmem hm hf)
        have hmk : ∀ j m, j ∈ ks → f j = .moveTo m → m ≠ k := by
          intro j m hj hm hc
          have := h3 j (List.mem_cons_of_mem k hj) m hm
          rw [hc, hg] at this
          exact Option.noConfusion this
        have hst' : ∀ j ∈ ks, ((st.delete k).put n v).get j = st.get j := by
          intro j hj
          rw [Store.get_put_ne _ _ _ _ (hjn j hj), Store.get_delete_ne _ _ _ (hjk j hj)]
        have h2' : ∀ j ∈ ks, ((st.delete k).put n v).get j ≠ none := by
          intro j hj
          rw [hst' j hj]
          exact h2 j (List.mem_cons_of_mem k hj)
        have h3' : ∀ j, j ∈ ks → ∀ m, f j = .moveTo m →
            ((st.delete k).put n v).get m = none := by
          intro j hj m hm
          rw [Store.get_put_ne _ _ _ _ (hmn j m hj hm),
            Store.get_delete_ne _ _ _ (hmk j m hj hm)]
          exact h3 j (List.mem_cons_of_mem k hj) m hm
        have h4' : ∀ j₁ j₂ m, j₁ ∈ ks → j₂ ∈ ks → f j₁ = .moveTo m → f j₂ = .moveTo m → j₁ = j₂ :=
          fun j₁ j₂ m hj₁ hj₂ ha hb =>
            h4 j₁ j₂ m (List.mem_cons_of_mem k hj₁) (List.mem_cons_of_mem k hj₂) ha hb
        have h5' : ∀ j ∈ ks, f j ≠ .fail :=
          fun j hj => h5 j (List.mem_cons_of_mem k hj)
        have hih := ih ((st.delete k).put n v) hndt h2' h3' h4' h5'
        have hmv := moves_cons_move f k n ks hf
        -- the fully applied store
        have hrun1 : (runSwaps f st (k :: ks)).1 =
            (runSwaps f ((st.delete k).put n v) ks).1 := by
          simp [runSwaps, hf, hg]
        have hrun21 : (runSwaps f st (k :: ks)).2.1 =
            (k, n) :: (runSwaps f ((st.delete k).put n v) ks).2.1 := by
          simp [runSwaps, hf, hg]
        have hrun22 : (runSwaps f st (k :: ks)).2.2 =
            (runSwaps f ((st.delete k).put n v) ks).2.2 := by
          simp [runSwaps, hf, hg]
        have hget_n : (runSwaps f ((st.delete k).put n v) ks).1.get n = some v := by
          rw [runSwaps_frame f ks ((st.delete k).put n v) n
            (fun j hj => ⟨hjn j hj, fun m hm => hmn j m hj hm⟩)]
          exact Store.get_put_self _ _ _
        -- abbreviations via generalize
        refine ⟨by rw [hrun22]; exact hih.1, by rw [hrun21, hmv, hih.2.1], ?_, ?_⟩
        · -- revert succeeds
          rw [hmv, hrun1]
          simp only [revertSwaps, hget_n]
          have hagree : ∀ p ∈ moves f ks,
              (((runSwaps f ((st.delete k).put n v) ks).1.delete n).put k v).get p.1 =
                (runSwaps f ((st.delete k).put n v) ks).1.get p.1 ∧
              (((runSwaps f ((st.delete k).put n v) ks).1.delete n).put k v).get p.2 =
                (runSwaps f ((st.delete k).put n v) ks).1.get p.2 := by
            intro p hp
            have hpm := (mem_moves f ks p).mp hp
            constructor
            · rw [Store.get_put_ne _ _ _ _ (hjk p.1 hpm.1),
                Store.get_delete_ne _ _ _ (hjn p.1 hpm.1)]
            · rw [Store.get_put_ne _ _ _ _ (hmk p.1 p.2 hpm.1 hpm.2),
                Store.get_delete_ne _ _ _ (hmn p.1 p.2 hpm.1 hpm.2)]
          have hcong := revertSwaps_cong (moves f ks)
            (((runSwaps f ((st.delete k).put n v) ks).1.delete n).put k v)
            ((runSwaps f ((st.delete k).put n v) ks).1) hagree
          rw [hcong.1]
          exact hih.2.2.1
        · -- restored at every key
          intro x
          rw [hmv, hrun1]
          simp only [revertSwaps, hget_n]
          have hagree : ∀ p ∈ moves f ks,
              (((runSwaps f ((st.delete k).put n v) ks).1.delete n).put k v).get p.1 =
                (runSwaps f ((st.delete k).put n v) ks).1.get p.1 ∧
              (((runSwaps f ((st.delete k).put n v) ks).1.delete n).put k v).get p.2 =
                (runSwaps f ((st.delete k).put n v) ks).1.get p.2 := by
            intro p hp
            have hpm := (mem_moves f ks p).mp hp
            constructor
            · rw [Store.get_put_ne _ _ _ _ (hjk p.1 hpm.1),
                Store.get_delete_ne _ _ _ (hjn p.1 hpm.1)]
            · rw [Store.get_put_ne _ _ _ _ (hmk p.1 p.2 hpm.1 hpm.2),
                Store.get_delete_ne _ _ _ (hmn p.1 p.2 hpm.1 hpm.2)]
          have hcong := revertSwaps_cong (moves f ks)
            (((runSwaps f ((st.delete k).put n v) ks).1.delete n).put k v)
            ((runSwaps f ((st.delete k).put n v) ks).1) hagree
          by_cases hxk : x = k
          · subst hxk
            rw [revertSwaps_frame (moves f ks) _ x ?hside]
            case hside =>
              intro p hp
              have hpm := (mem_moves f ks p).mp hp
              exact ⟨hjk p.1 hpm.1, hmk p.1 p.2 hpm.1 hpm.2⟩
            rw [Store.get_put_self, hg]
          · by_cases hxn : x = n
            · subst hxn
              rw [revertSwaps_frame (moves f ks) _ x ?hside2]
              case hside2 =>
                intro p hp
                have hpm := (mem_moves f ks p).mp hp
                exact ⟨hjn p.1 hpm.1, hmn p.1 p.2 hpm.1 hpm.2⟩
              rw [Store.get_put_ne _ _ _ _ (fun hc => hkn hc.symm),
                Store.get_delete_self, hnfresh]
            · have hTx :
                  (((runSwaps f ((st.delete k).put n v) ks).1.delete n).put k v).get x =
                  (runSwaps f ((st.delete k).put n v) ks).1.get x := by
                rw [Store.get_put_ne _ _ _ _ hxk, Store.get_delete_ne _ _ _ hxn]
              rw [hcong.2 x hTx, hih.2.2.2 x,
                Store.get_put_ne _ _ _ _ hxn, Store.get_delete_ne _ _ _ hxk]

/-!
Core lemmas about the bulk transfer.
-/

theorem rewriteKey_inj (fpref tpref k₁ k₂ : Key)
    (h₁ : fpref <+: k₁) (h₂ : fpref <+: k₂)
    (h : tpref ++ k₁.drop fpref.length = tpref ++ k₂.drop fpref.length) :
    k₁ = k₂ := by
  obtain ⟨t₁, ht₁⟩ := h₁
  obtain ⟨t₂, ht₂⟩ := h₂
  have hd := List.append_cancel_left h
  rw [← ht₁, ← ht₂, List.drop_left fpref t₁, List.drop_left fpref t₂] at hd
  rw [← ht₁, ← ht₂, hd]

/-- The per-key loop of `transferBlocks`: over pairwise distinct source
keys that all carry the source prefix and are all present, the loop
succeeds, moves every listed key to its rewritten destination key with
its value, and leaves all other bindings of both stores unchanged. -/
theorem transfer_core (fpref tpref : Key) (ks : List Key) :
    ∀ (src dst : Store),
    ks.Nodup →
    (∀ k ∈ ks, src.get k ≠ none) →
    (∀ k ∈ ks, fpref <+: k) →
    (transferLoop fpref tpref src dst ks).2.2 = none ∧
    (∀ k ∈ ks,
      (transferLoop fpref tpref src dst ks).1.get k = none ∧
      (transferLoop fpref tpref src dst ks).2.1.get (tpref ++ k.drop fpref.length) =
        src.get k) ∧
    (∀ x, (∀ k ∈ ks, k ≠ x) →
      (transferLoop fpref tpref src dst ks).1.get x = src.get x) ∧
    (∀ y, (∀ k ∈ ks, tpref ++ k.drop fpref.length ≠ y) →
      (transferLoop fpref tpref src dst ks).2.1.get y = dst.get y) := by
  induction ks with
  | nil =>
    intro src dst _ _ _
    exact ⟨rfl, by simp, fun x _ => rfl, fun y _ => rfl⟩
  | cons k ks ih =>
    intro src dst hnd h2 hpre
    have hkmem : k ∈ k :: ks := List.mem_cons_self k ks
    have hknotin : k ∉ ks := (List.nodup_cons.mp hnd).1
    have hndt : ks.Nodup := (List.nodup_cons.mp hnd).2
    have hjk : ∀ j ∈ ks, j ≠ k := fun j hj hc => hknotin (hc ▸ hj)
    cases hg : src.get k with
    | none => exact absurd hg (h2 k hkmem)
    | some v =>
      have h2' : ∀ j ∈ ks, (src.delete k).get j ≠ none := by
        intro j hj
        rw [Store.get_delete_ne _ _ _ (hjk j hj)]
        exact h2 j (List.mem_cons_of_mem k hj)
      have hpre' : ∀ j ∈ ks, fpref <+: j :=
        fun j hj => hpre j (List.mem_cons_of_mem k hj)
      have himg : ∀ j ∈ ks, tpref ++ j.drop fpref.length ≠ tpref ++ k.drop fpref.length := by
        intro j hj hc
        exact hjk j hj
          (rewriteKey_inj fpref tpref j k (hpre' j hj) (hpre k hkmem) hc)
      have hih := ih (src.delete k) (dst.put (tpref ++ k.drop fpref.length) v)
        hndt h2' hpre'
      have hloop : transferLoop fpref tpref src dst (k :: ks) =
          transferLoop fpref tpref (src.delete k)
            (dst.put (tpref ++ k.drop fpref.length) v) ks := by
        simp [transferLoop, hg]
      rw [hloop]
      refine ⟨hih.1, ?_, ?_, ?_⟩
      · intro j hj
        rcases List.mem_cons.mp hj with hj | hj
        · subst hj
          constructor
          · rw [hih.2.2.1 j (fun i hi => hjk i hi), Store.get_delete_self]
          · rw [hih.2.2.2 _ (fun i hi => himg i hi), Store.get_put_self, hg]
        · constructor
          · exact (hih.2.1 j hj).1
          · rw [(hih.2.1 j hj).2, Store.get_delete_ne _ _ _ (hjk j hj)]
      · intro x hx
        rw [hih.2.2.1 x (fun i hi => hx i (List.mem_cons_of_mem k hi)),
          Store.get_delete_ne _ _ _ (fun hc => hx k hkmem hc.symm)]
      · intro y hy
        rw [hih.2.2.2 y (fun i hi => hy i (List.mem_cons_of_mem k hi)),
          Store.get_put_ne _ _ _ _ (fun hc => hy k hkmem hc.symm)]

theorem filterMap_parse_serialize (sws : List Swap)
    (h : ∀ p ∈ sws, ',' ∉ p.1 ∧ ',' ∉ p.2) :
    (sws.map serializeSwap).filterMap parseLine = sws := by
  induction sws with
  | nil => rfl
  | cons p rest ih =>
    obtain ⟨o, n⟩ := p
    have hp := h (o, n) (List.mem_cons_self _ rest)
    simp only [List.map_cons, List.filterMap_cons,
      parseLine_serializeSwap o n hp.1 hp.2]
    rw [ih (fun q hq => h q (List.mem_cons_of_mem _ hq))]

theorem not_mem_recordEvents (e : Event) (sws : List Swap)
    (h : ∀ o n, e ≠ .recordWritten o n) :
    e ∉ sws.map (fun s => Event.recordWritten s.1 s.2) := by
  simp only [List.mem_map]
  rintro ⟨s, _, hs⟩
  exact h s.1 s.2 hs.symm

theorem not_mem_revertEvents (e : Event) (sws : List Swap)
    (h : ∀ o n, e ≠ .swapReverted o n) :
    e ∉ sws.map (fun s => Event.swapReverted s.1 s.2) := by
  simp only [List.mem_map]
  rintro ⟨s, _, hs⟩
  exact h s.1 s.2 hs.symm

theorem not_mem_warnEvents (e : Event) (ls : List Line)
    (h : ∀ l, e ≠ .lineWarned l) :
    e ∉ ls.map Event.lineWarned := by
  simp only [List.mem_map]
  rintro ⟨l, _, hl⟩
  exact h l hl.symm

/-- Claim C1: for a store whose version marker is "8" (the step's `from`
version), with no pre-existing backup artifact, distinct keys, and a
key mapping that never fails, whose targets are fresh, pairwise
distinct and comma-free, running Revert immediately after a successful
Apply succeeds and restores the original key set and values: every key
holds exactly the value it held before Apply. -/
theorem mg8_apply_revert_roundtrip (f : Key → TransformResult) (r : Repo)
    (hv : r.version = "8") (hb : r.backup = none)
    (hnd : (r.blocks.map Prod.fst).Nodup)
    (hfail : ∀ k ∈ r.blocks.map Prod.fst, f k ≠ .fail)
    (hfresh : ∀ k, k ∈ r.blocks.map Prod.fst → ∀ n, f k = .moveTo n →
      r.blocks.get n = none)
    (hinj : ∀ k₁ k₂ n, k₁ ∈ r.blocks.map Prod.fst → k₂ ∈ r.blocks.map Prod.fst →
      f k₁ = .moveTo n → f k₂ = .moveTo n → k₁ = k₂)
    (hcomma : ∀ k, k ∈ r.blocks.map Prod.fst → ∀ n, f k = .moveTo n →
      ',' ∉ k ∧ ',' ∉ n) :
    (mg8Apply f benignEnv r).err = none ∧
    (mg8Revert benignEnv (mg8Apply f benignEnv r).repo).err = none ∧
    ∀ x, (mg8Revert benignEnv (mg8Apply f benignEnv r).repo).repo.blocks.get x =
      r.blocks.get x := by
  have h2 : ∀ k ∈ r.blocks.map Prod.fst, r.blocks.get k ≠ none :=
    fun k hk => Store.get_ne_none_of_mem r.blocks k hk
  have hcore := roundtrip_core f (r.blocks.map Prod.fst) r.blocks
    hnd h2 hfresh hinj hfail
  have hswcomma : ∀ p ∈ (runSwaps f r.blocks (r.blocks.map Prod.fst)).2.1,
      ',' ∉ p.1 ∧ ',' ∉ p.2 := by
    intro p hp
    rw [hcore.2.1] at hp
    have hpm := (mem_moves f (r.blocks.map Prod.fst) p).mp hp
    exact hcomma p.1 hpm.1 p.2 hpm.2
  have happly : mg8Apply f benignEnv r =
      ⟨⟨"9", (runSwaps f r.blocks (r.blocks.map Prod.fst)).1,
        some ((runSwaps f r.blocks (r.blocks.map Prod.fst)).2.1.map serializeSwap)⟩,
        none,
        [Event.lockAcquired, Event.versionChecked "8",
          Event.storeOpened, Event.backupOpened] ++
          (runSwaps f r.blocks (r.blocks.map Prod.fst)).2.1.map
            (fun s => Event.recordWritten s.1 s.2) ++
          [.versionWritten "9", .backupFlushed, .lockReleased]⟩ := by
    simp only [mg8Apply, benignEnv, hv, hb, if_true, if_false, Bool.false_eq_true,
      reduceIte, Option.getD_none, List.nil_append]
    rw [hcore.1]
  have hparse : ((runSwaps f r.blocks (r.blocks.map Prod.fst)).2.1.map
      serializeSwap).filterMap parseLine =
      (runSwaps f r.blocks (r.blocks.map Prod.fst)).2.1 :=
    filterMap_parse_serialize _ hswcomma
  have hrevert : mg8Revert benignEnv (mg8Apply f benignEnv r).repo =
      ⟨⟨"8",
        (revertSwaps (runSwaps f r.blocks (r.blocks.map Prod.fst)).1
          (runSwaps f r.blocks (r.blocks.map Prod.fst)).2.1).1, none⟩,
        none,
        [Event.lockAcquired, Event.versionChecked "9",
          Event.storeOpened, Event.backupOpened] ++
          (((runSwaps f r.blocks (r.blocks.map Prod.fst)).2.1.map serializeSwap).filter
            (fun l => (parseLine l).isNone)).map Event.lineWarned ++
          (revertSwaps (runSwaps f r.blocks (r.blocks.map Prod.fst)).1
            (runSwaps f r.blocks (r.blocks.map Prod.fst)).2.1).2.1.map
            (fun s => Event.swapReverted s.1 s.2) ++
          [.versionWritten "8", .backupDeleted, .lockReleased]⟩ := by
    rw [happly]
    simp only [mg8Revert, benignEnv, if_true, if_false, Bool.false_eq_true,
      reduceIte, hparse]
    rw [hcore.2.1]
    rw [show (revertSwaps (runSwaps f r.blocks (r.blocks.map Prod.fst)).1
      (moves f (r.blocks.map Prod.fst))).2.2 = none from hcore.2.2.1]
  refine ⟨by rw [happly], by rw [hrevert], ?_⟩
  intro x
  rw [hrevert]
  have := hcore.2.2.2 x
  rw [hcore.2.1]
  exact this

/-- Witness for C1 at a one-key store with the mapping that prepends
`m` to each key. -/
theorem mg8_apply_revert_roundtrip_witness :
    (mg8Apply (fun k => .moveTo ('m' :: k)) benignEnv
      ⟨"8", [(['a'], ['v'])], none⟩).err = none ∧
    (mg8Revert benignEnv (mg8Apply (fun k => .moveTo ('m' :: k)) benignEnv
      ⟨"8", [(['a'], ['v'])], none⟩).repo).err = none ∧
    (mg8Revert benignEnv (mg8Apply (fun k => .moveTo ('m' :: k)) benignEnv
      ⟨"8", [(['a'], ['v'])], none⟩).repo).repo.blocks.get ['a'] = some ['v'] := by
  have h := mg8_apply_revert_roundtrip (fun k => .moveTo ('m' :: k))
    ⟨"8", [(['a'], ['v'])], none⟩ rfl rfl (by decide)
    (by intro k _ hc; exact TransformResult.noConfusion hc)
    (by
      intro k hk n hn
      injection hn with h1
      subst h1
      simp only [List.map_cons, List.map_nil, List.mem_singleton] at hk
      subst hk
      decide)
    (by
      intro k₁ k₂ n _ _ h₁ h₂
      rw [← h₂] at h₁
      injection h₁ with h3
      exact List.cons_injective h3)
    (by
      intro k hk n hn
      injection hn with h1
      subst h1
      simp only [List.map_cons, List.map_nil, List.mem_singleton] at hk
      subst hk
      decide)
  exact ⟨h.1, h.2.1, (h.2.2 ['a']).trans (by decide)⟩

theorem mg8Apply_ok_trace (f : Key → TransformResult) (env : Env) (r : Repo)
    (h : (mg8Apply f env r).err = none) :
    (mg8Apply f env r).trace =
      [Event.lockAcquired, Event.versionChecked "8", Event.storeOpened,
        Event.backupOpened] ++
      (runSwaps f r.blocks (r.blocks.map Prod.fst)).2.1.map
        (fun s => Event.recordWritten s.1 s.2) ++
      [.versionWritten "9", .backupFlushed, .lockReleased] := by
  by_cases h1 : env.lockBusy
  · simp [mg8Apply, h1] at h
  by_cases h2 : r.version = "8"
  swap
  · simp [mg8Apply, h1, h2] at h
  by_cases h3 : env.storeOpenFails
  · simp [mg8Apply, h1, h2, h3] at h
  by_cases h4 : env.statFails
  · simp [mg8Apply, h1, h2, h3, h4] at h
  by_cases h5 : env.backupOpenFails
  · simp [mg8Apply, h1, h2, h3, h4, h5] at h
  cases hres : (runSwaps f r.blocks (r.blocks.map Prod.fst)).2.2 with
  | some e => simp [mg8Apply, h1, h2, h3, h4, h5, hres] at h
  | none =>
    by_cases h6 : env.versionWriteFails
    · simp [mg8Apply, h1, h2, h3, h4, h5, hres, h6] at h
    · simp [mg8Apply, h1, h2, h3, h4, h5, hres, h6]

/-- Claim C2 counterexample: on a concrete one-key repo, a successful
Apply writes the version marker "9" strictly before the deferred flush
of the buffered backup records runs, so the claimed flush-before-commit
ordering does not hold. -/
theorem mg8_flush_ordering_counterexample :
    (mg8Apply (fun k => .moveTo ('m' :: k)) benignEnv
      ⟨"8", [(['a'], ['v'])], none⟩).err = none ∧
    occursBefore (.versionWritten "9") .backupFlushed
      (mg8Apply (fun k => .moveTo ('m' :: k)) benignEnv
        ⟨"8", [(['a'], ['v'])], none⟩).trace ∧
    ¬ occursBefore .backupFlushed (.versionWritten "9")
      (mg8Apply (fun k => .moveTo ('m' :: k)) benignEnv
        ⟨"8", [(['a'], ['v'])], none⟩).trace := by
  decide

/-- Claim C2 (amended): in every successful Apply, the writer
goroutine's completion is awaited before the version marker is advanced
— every backup record is handed to the buffered writer before the
version write — but the buffered records are flushed only by the
deferred `Flush` that runs when Apply returns, after the version marker
was advanced to "9". -/
theorem mg8_writer_awaited_flush_after_commit (f : Key → TransformResult)
    (env : Env) (r : Repo) (h : (mg8Apply f env r).err = none) :
    (∀ o n, Event.recordWritten o n ∈ (mg8Apply f env r).trace →
      occursBefore (.recordWritten o n) (.versionWritten "9")
        (mg8Apply f env r).trace) ∧
    occursBefore (.versionWritten "9") .backupFlushed (mg8Apply f env r).trace := by
  have htr := mg8Apply_ok_trace f env r h
  constructor
  · intro o n hmem
    rw [htr] at hmem ⊢
    apply occursBefore_append
    · rcases List.mem_append.mp hmem with h₁ | h₁
      · exact h₁
      · simp at h₁
    · intro hc
      rcases List.mem_append.mp hc with h₁ | h₁
      · simp at h₁
      · simp at h₁
    · simp
  · rw [htr]
    have hassoc :
        [Event.lockAcquired, Event.versionChecked "8", Event.storeOpened,
          Event.backupOpened] ++
        (runSwaps f r.blocks (r.blocks.map Prod.fst)).2.1.map
          (fun s => Event.recordWritten s.1 s.2) ++
        [Event.versionWritten "9", Event.backupFlushed, Event.lockReleased] =
        ([Event.lockAcquired, Event.versionChecked "8", Event.storeOpened,
          Event.backupOpened] ++
        (runSwaps f r.blocks (r.blocks.map Prod.fst)).2.1.map
          (fun s => Event.recordWritten s.1 s.2) ++
        [Event.versionWritten "9"]) ++
        [Event.backupFlushed, Event.lockReleased] := by
      simp
    rw [hassoc]
    apply occursBefore_append
    · simp
    · intro hc
      rcases List.mem_append.mp hc with h₁ | h₁
      · rcases List.mem_append.mp h₁ with h₂ | h₂
        · simp at h₂
        · simp at h₂
      · simp at h₁
    · simp

/-- Witness for C2 (amended) at a concrete successful Apply. -/
theorem mg8_writer_awaited_flush_after_commit_witness :
    occursBefore (.versionWritten "9") .backupFlushed
      (mg8Apply (fun _ => TransformResult.skip) benignEnv
        ⟨"8", [(['a'], ['v'])], none⟩).trace :=
  (mg8_writer_awaited_flush_after_commit (fun _ => TransformResult.skip)
    benignEnv ⟨"8", [(['a'], ['v'])], none⟩ (by decide)).2

/-- Claim C3: with the repo lock available, Apply on a repo whose
persisted version differs from "8" — in particular an already-migrated
repo at "9" — returns a version-mismatch error, leaves the repo state
untouched, and never opens the store or writes a record; symmetrically
Revert fails with a version mismatch when the version differs from "9". -/
theorem mg8_version_guard (f : Key → TransformResult) (env : Env) (r r₂ : Repo)
    (hl : env.lockBusy = false) (h8 : r.version ≠ "8") (h9 : r₂.version ≠ "9") :
    (mg8Apply f env r).err = some .versionMismatch ∧
    (mg8Apply f env r).repo = r ∧
    Event.storeOpened ∉ (mg8Apply f env r).trace ∧
    (∀ o n, Event.recordWritten o n ∉ (mg8Apply f env r).trace) ∧
    (mg8Revert env r₂).err = some .versionMismatch ∧
    (mg8Revert env r₂).repo = r₂ ∧
    Event.storeOpened ∉ (mg8Revert env r₂).trace ∧
    (∀ o n, Event.swapReverted o n ∉ (mg8Revert env r₂).trace) := by
  refine ⟨?_, ?_, ?_, ?_, ?_, ?_, ?_, ?_⟩ <;>
    simp [mg8Apply, mg8Revert, hl, h8, h9]

/-- Witness for C3: an already-migrated repo at version "9" rejected by
Apply, and a repo at "8" rejected by Revert. -/
theorem mg8_version_guard_witness :
    (mg8Apply (fun _ => TransformResult.skip) benignEnv
      ⟨"9", [(['a'], ['v'])], none⟩).err = some .versionMismatch ∧
    (mg8Revert benignEnv ⟨"8", [(['a'], ['v'])], none⟩).err =
      some .versionMismatch := by
  have h := mg8_version_guard (fun _ => TransformResult.skip) benignEnv
    ⟨"9", [(['a'], ['v'])], none⟩ ⟨"8", [(['a'], ['v'])], none⟩
    (by decide) (by decide) (by decide)
  exact ⟨h.1, h.2.2.2.2.1⟩

theorem mg8Apply_version_cases (f : Key → TransformResult) (env : Env) (r : Repo) :
    (mg8Apply f env r).repo.version = r.version ∨ (mg8Apply f env r).err = none := by
  by_cases h1 : env.lockBusy
  · left
    simp [mg8Apply, h1]
  by_cases h2 : r.version = "8"
  swap
  · left
    simp [mg8Apply, h1, h2]
  by_cases h3 : env.storeOpenFails
  · left
    simp [mg8Apply, h1, h2, h3]
  by_cases h4 : env.statFails
  · left
    simp [mg8Apply, h1, h2, h3, h4]
  by_cases h5 : env.backupOpenFails
  · left
    simp [mg8Apply, h1, h2, h3, h4, h5]
  cases hres : (runSwaps f r.blocks (r.blocks.map Prod.fst)).2.2 with
  | some e =>
    left
    simp [mg8Apply, h1, h2, h3, h4, h5, hres]
  | none =>
    by_cases h6 : env.versionWriteFails
    · left
      simp [mg8Apply, h1, h2, h3, h4, h5, hres, h6]
    · right
      simp [mg8Apply, h1, h2, h3, h4, h5, hres, h6]

theorem mg1Apply_version_cases (env : Mg1Env) (r : Mg1Repo) :
    (mg1Apply env r).repo.version = r.version ∨ (mg1Apply env r).err = none := by
  by_cases h1 : r.version = "1"
  swap
  · left
    simp [mg1Apply, h1]
  by_cases h2 : env.sanityFails
  · left
    simp [mg1Apply, h1, h2]
  by_cases h3 : env.ldbOpenFails
  · left
    simp [mg1Apply, h1, h2, h3]
  by_cases h4 : env.mkdirFails
  · left
    simp [mg1Apply, h1, h2, h3, h4]
  by_cases h5 : env.flatOpenFails
  · left
    simp [mg1Apply, h1, h2, h3, h4, h5]
  cases hres : (transferBlocks r.ldb r.flat ['/', 'b', '/'] []).2.2 with
  | some e =>
    left
    simp [mg1Apply, h1, h2, h3, h4, h5, hres]
  | none =>
    by_cases h6 : env.renameFails
    · left
      simp [mg1Apply, h1, h2, h3, h4, h5, hres, h6]
    · by_cases h7 : env.versionWriteFails
      · left
        simp [mg1Apply, h1, h2, h3, h4, h5, hres, h6, h7]
      · right
        simp [mg1Apply, h1, h2, h3, h4, h5, hres, h6, h7]

/-- Claim C4: whenever Apply returns an error other than a failure of
the final version write itself — lock acquisition, version check, store
open, backup stat/open, or a per-key transform error — the persisted
version marker is unchanged (so it still holds the step's `from`
value); this holds for the 8-to-9 and for the 1-to-2 Apply. -/
theorem apply_error_keeps_version (f : Key → TransformResult) (env : Env)
    (r : Repo) (env₁ : Mg1Env) (r₁ : Mg1Repo) :
    (∀ e, (mg8Apply f env r).err = some e → e ≠ .versionWriteError →
      (mg8Apply f env r).repo.version = r.version) ∧
    (∀ e, (mg1Apply env₁ r₁).err = some e → e ≠ .versionWriteError →
      (mg1Apply env₁ r₁).repo.version = r₁.version) := by
  constructor
  · intro e he _
    rcases mg8Apply_version_cases f env r with h | h
    · exact h
    · rw [he] at h
      exact Option.noConfusion h
  · intro e he _
    rcases mg1Apply_version_cases env₁ r₁ with h | h
    · exact h
    · rw [he] at h
      exact Option.noConfusion h

/-- Witness for C4: a lock failure leaves the 8-to-9 marker at "8"; a
version-check failure leaves the 1-to-2 marker at "7". -/
theorem apply_error_keeps_version_witness :
    (mg8Apply (fun _ => TransformResult.skip)
      ⟨true, false, false, false, false, false, false, none⟩
      ⟨"8", [], none⟩).repo.version = "8" ∧
    (mg1Apply benignMg1Env ⟨"7", [], []⟩).repo.version = "7" := by
  have h := apply_error_keeps_version (fun _ => TransformResult.skip)
    ⟨true, false, false, false, false, false, false, none⟩
    ⟨"8", [], none⟩ benignMg1Env ⟨"7", [], []⟩
  exact ⟨h.1 .lockError (by decide) (by decide),
    h.2 .versionMismatch (by decide) (by decide)⟩

/-- Claim C5: after a successful `transferBlocks(from, to, fpref, tpref)`
over a source store with distinct keys, every source key `K` carrying
the source prefix has been moved: the destination holds `tpref`
followed by `K` stripped of `fpref`, with the identical value, and the
source no longer contains `K`. -/
theorem transferBlocks_moves_key (src dst : Store) (fpref tpref K : Key) (v : Val)
    (hnd : (src.map Prod.fst).Nodup) (hK : src.get K = some v) (hp : fpref <+: K) :
    (transferBlocks src dst fpref tpref).2.2 = none ∧
    (transferBlocks src dst fpref tpref).2.1.get
      (tpref ++ K.drop fpref.length) = some v ∧
    (transferBlocks src dst fpref tpref).1.get K = none := by
  have hks_nd : ((src.map Prod.fst).filter (fun k => fpref.isPrefixOf k)).Nodup :=
    hnd.filter _
  have hmem : ∀ k, k ∈ (src.map Prod.fst).filter (fun k => fpref.isPrefixOf k) →
      k ∈ src.map Prod.fst ∧ fpref <+: k := by
    intro k hk
    have h := List.mem_filter.mp hk
    exact ⟨h.1, List.isPrefixOf_iff_prefix.mp h.2⟩
  have h2 : ∀ k ∈ (src.map Prod.fst).filter (fun k => fpref.isPrefixOf k),
      src.get k ≠ none :=
    fun k hk => Store.get_ne_none_of_mem src k (hmem k hk).1
  have hpre : ∀ k ∈ (src.map Prod.fst).filter (fun k => fpref.isPrefixOf k),
      fpref <+: k :=
    fun k hk => (hmem k hk).2
  have hcore := transfer_core fpref tpref
    ((src.map Prod.fst).filter (fun k => fpref.isPrefixOf k)) src dst
    hks_nd h2 hpre
  have hKmem : K ∈ (src.map Prod.fst).filter (fun k => fpref.isPrefixOf k) :=
    List.mem_filter.mpr ⟨Store.mem_of_get_eq_some src K v hK,
      List.isPrefixOf_iff_prefix.mpr hp⟩
  refine ⟨hcore.1, ?_, (hcore.2.1 K hKmem).1⟩
  have h := (hcore.2.1 K hKmem).2
  rw [hK] at h
  exact h

/-- Witness for C5: five keys under prefix `/b/` all move to the empty
target prefix with identical values and the source ends empty. -/
theorem transferBlocks_moves_key_witness :
    (transferBlocks
      [(['/', 'b', '/', '1'], ['a']), (['/', 'b', '/', '2'], ['b']),
       (['/', 'b', '/', '3'], ['c']), (['/', 'b', '/', '4'], ['d']),
       (['/', 'b', '/', '5'], ['e'])] [] ['/', 'b', '/'] []).2.2 = none ∧
    (transferBlocks
      [(['/', 'b', '/', '1'], ['a']), (['/', 'b', '/', '2'], ['b']),
       (['/', 'b', '/', '3'], ['c']), (['/', 'b', '/', '4'], ['d']),
       (['/', 'b', '/', '5'], ['e'])] [] ['/', 'b', '/'] []).2.1.get
      ([] ++ ['/', 'b', '/', '1'].drop ['/', 'b', '/'].length) = some ['a'] ∧
    (transferBlocks
      [(['/', 'b', '/', '1'], ['a']), (['/', 'b', '/', '2'], ['b']),
       (['/', 'b', '/', '3'], ['c']), (['/', 'b', '/', '4'], ['d']),
       (['/', 'b', '/', '5'], ['e'])] [] ['/', 'b', '/'] []).1.get
      ['/', 'b', '/', '1'] = none ∧
    (transferBlocks
      [(['/', 'b', '/', '1'], ['a']), (['/', 'b', '/', '2'], ['b']),
       (['/', 'b', '/', '3'], ['c']), (['/', 'b', '/', '4'], ['d']),
       (['/', 'b', '/', '5'], ['e'])] [] ['/', 'b', '/'] []).1 = [] := by
  have h := transferBlocks_moves_key
    [(['/', 'b', '/', '1'], ['a']), (['/', 'b', '/', '2'], ['b']),
     (['/', 'b', '/', '3'], ['c']), (['/', 'b', '/', '4'], ['d']),
     (['/', 'b', '/', '5'], ['e'])] [] ['/', 'b', '/'] []
    ['/', 'b', '/', '1'] ['a'] (by decide) (by decide) (by decide)
  exact ⟨h.1, h.2.1, h.2.2, by decide⟩

/-- Claim C6: during a Revert over a backup artifact that mixes
malformed and well-formed lines, every line that does not split on
comma into exactly two fields is skipped with a logged warning, every
well-formed line is converted into a swap record and processed, and
Revert as a whole still succeeds. -/
theorem mg8_revert_skips_malformed (r : Repo) (lines : List Line)
    (hv : r.version = "9") (hb : r.backup = some lines)
    (hok : (revertSwaps r.blocks (lines.filterMap parseLine)).2.2 = none) :
    (mg8Revert benignEnv r).err = none ∧
    (∀ l ∈ lines, parseLine l = none →
      Event.lineWarned l ∈ (mg8Revert benignEnv r).trace) ∧
    (∀ p ∈ lines.filterMap parseLine,
      Event.swapReverted p.1 p.2 ∈ (mg8Revert benignEnv r).trace) ∧
    (mg8Revert benignEnv r).repo.blocks =
      (revertSwaps r.blocks (lines.filterMap parseLine)).1 := by
  have happ := revertSwaps_applied_of_ok (lines.filterMap parseLine) r.blocks hok
  have hrev : mg8Revert benignEnv r =
      ⟨⟨"8", (revertSwaps r.blocks (lines.filterMap parseLine)).1, none⟩, none,
        [Event.lockAcquired, Event.versionChecked "9", Event.storeOpened,
          Event.backupOpened] ++
        (lines.filter (fun l => (parseLine l).isNone)).map Event.lineWarned ++
        (revertSwaps r.blocks (lines.filterMap parseLine)).2.1.map
          (fun s => Event.swapReverted s.1 s.2) ++
        [.versionWritten "8", .backupDeleted, .lockReleased]⟩ := by
    simp only [mg8Revert, benignEnv, hv, hb, if_true, if_false,
      Bool.false_eq_true, reduceIte]
    rw [hok]
  refine ⟨by rw [hrev], ?_, ?_, by rw [hrev]⟩
  · intro l hl hpl
    rw [hrev]
    have hm : Event.lineWarned l ∈
        (lines.filter (fun l => (parseLine l).isNone)).map Event.lineWarned :=
      List.mem_map_of_mem _ (List.mem_filter.mpr ⟨hl, by simp [hpl]⟩)
    simp only [List.mem_append]
    exact Or.inl (Or.inl (Or.inr hm))
  · intro p hp
    rw [hrev]
    have hm : Event.swapReverted p.1 p.2 ∈
        (revertSwaps r.blocks (lines.filterMap parseLine)).2.1.map
          (fun s => Event.swapReverted s.1 s.2) := by
      rw [happ]
      exact List.mem_map_of_mem _ hp
    simp only [List.mem_append]
    exact Or.inl (Or.inr hm)

/-- Witness for C6: one malformed line with no comma is skipped with a
warning, the remaining well-formed line is applied, and Revert
succeeds. -/
theorem mg8_revert_skips_malformed_witness :
    (mg8Revert benignEnv
      ⟨"9", [(['b'], ['v'])], some [['x'], ['a', ',', 'b']]⟩).err = none ∧
    Event.lineWarned ['x'] ∈ (mg8Revert benignEnv
      ⟨"9", [(['b'], ['v'])], some [['x'], ['a', ',', 'b']]⟩).trace ∧
    Event.swapReverted ['a'] ['b'] ∈ (mg8Revert benignEnv
      ⟨"9", [(['b'], ['v'])], some [['x'], ['a', ',', 'b']]⟩).trace := by
  have h := mg8_revert_skips_malformed
    ⟨"9", [(['b'], ['v'])], some [['x'], ['a', ',', 'b']]⟩
    [['x'], ['a', ',', 'b']] rfl rfl (by decide)
  exact ⟨h.1, h.2.1 ['x'] (by decide) (by decide),
    h.2.2.1 (['a'], ['b']) (by decide)⟩

/-- Claim C9: when deleting the backup artifact at the end of an
otherwise successful Revert fails, the failure is only logged — Revert
still returns success, the backup file is left in place, and the
version marker has already been reset to "8". -/
theorem mg8_revert_remove_failure_ignored (r : Repo) (lines : List Line)
    (hv : r.version = "9") (hb : r.backup = some lines)
    (hok : (revertSwaps r.blocks (lines.filterMap parseLine)).2.2 = none) :
    (mg8Revert ⟨false, false, false, false, false, false, true, none⟩ r).err =
      none ∧
    (mg8Revert ⟨false, false, false, false, false, false, true, none⟩
      r).repo.backup = some lines ∧
    (mg8Revert ⟨false, false, false, false, false, false, true, none⟩
      r).repo.version = "8" := by
  have hrev : mg8Revert ⟨false, false, false, false, false, false, true, none⟩ r =
      ⟨⟨"8", (revertSwaps r.blocks (lines.filterMap parseLine)).1, some lines⟩,
        none,
        [Event.lockAcquired, Event.versionChecked "9", Event.storeOpened,
          Event.backupOpened] ++
        (lines.filter (fun l => (parseLine l).isNone)).map Event.lineWarned ++
        (revertSwaps r.blocks (lines.filterMap parseLine)).2.1.map
          (fun s => Event.swapReverted s.1 s.2) ++
        [.versionWritten "8", .lockReleased]⟩ := by
    simp only [mg8Revert, hv, hb, if_true, if_false, Bool.false_eq_true,
      reduceIte]
    rw [hok]
  exact ⟨by rw [hrev], by rw [hrev], by rw [hrev]⟩

/-- Witness for C9 at a concrete one-swap backup. -/
theorem mg8_revert_remove_failure_ignored_witness :
    (mg8Revert ⟨false, false, false, false, false, false, true, none⟩
      ⟨"9", [(['b'], ['v'])], some [['a', ',', 'b']]⟩).err = none ∧
    (mg8Revert ⟨false, false, false, false, false, false, true, none⟩
      ⟨"9", [(['b'], ['v'])], some [['a', ',', 'b']]⟩).repo.backup =
      some [['a', ',', 'b']] ∧
    (mg8Revert ⟨false, false, false, false, false, false, true, none⟩
      ⟨"9", [(['b'], ['v'])], some [['a', ',', 'b']]⟩).repo.version = "8" := by
  have h := mg8_revert_remove_failure_ignored
    ⟨"9", [(['b'], ['v'])], some [['a', ',', 'b']]⟩ [['a', ',', 'b']]
    rfl rfl (by decide)
  exact ⟨h.1, h.2.1, h.2.2⟩

/-- Claim C10: when the backup scanner hits a read error after
delivering `nr` lines, the scanning goroutine only logs it and closes
the channel, and Revert behaves as if the log were exhausted: it
applies only the swaps parsed from the first `nr` lines, writes version
"8", deletes the backup file and returns success. -/
theorem mg8_revert_read_error_truncates (r : Repo) (lines : List Line) (nr : Nat)
    (hv : r.version = "9") (hb : r.backup = some lines)
    (hok : (revertSwaps r.blocks ((lines.take nr).filterMap parseLine)).2.2 =
      none) :
    (mg8Revert ⟨false, false, false, false, false, false, false, some nr⟩
      r).err = none ∧
    (mg8Revert ⟨false, false, false, false, false, false, false, some nr⟩
      r).repo.version = "8" ∧
    (mg8Revert ⟨false, false, false, false, false, false, false, some nr⟩
      r).repo.backup = none ∧
    (mg8Revert ⟨false, false, false, false, false, false, false, some nr⟩
      r).repo.blocks =
      (revertSwaps r.blocks ((lines.take nr).filterMap parseLine)).1 := by
  have hrev : mg8Revert ⟨false, false, false, false, false, false, false, some nr⟩ r =
      ⟨⟨"8", (revertSwaps r.blocks ((lines.take nr).filterMap parseLine)).1,
        none⟩, none,
        [Event.lockAcquired, Event.versionChecked "9", Event.storeOpened,
          Event.backupOpened] ++
        ((lines.take nr).filter (fun l => (parseLine l).isNone)).map
          Event.lineWarned ++
        (revertSwaps r.blocks ((lines.take nr).filterMap parseLine)).2.1.map
          (fun s => Event.swapReverted s.1 s.2) ++
        [.versionWritten "8", .backupDeleted, .lockReleased]⟩ := by
    simp only [mg8Revert, hv, hb, if_true, if_false, Bool.false_eq_true,
      reduceIte]
    rw [hok]
  exact ⟨by rw [hrev], by rw [hrev], by rw [hrev], by rw [hrev]⟩

/-- Witness for C10: of two logged swaps, a read error after the first
line leaves the second swap unapplied while Revert reports success,
resets the version and deletes the backup. -/
theorem mg8_revert_read_error_truncates_witness :
    (mg8Revert ⟨false, false, false, false, false, false, false, some 1⟩
      ⟨"9", [(['b'], ['v']), (['d'], ['w'])],
        some [['a', ',', 'b'], ['c', ',', 'd']]⟩).err = none ∧
    (mg8Revert ⟨false, false, false, false, false, false, false, some 1⟩
      ⟨"9", [(['b'], ['v']), (['d'], ['w'])],
        some [['a', ',', 'b'], ['c', ',', 'd']]⟩).repo.version = "8" ∧
    (mg8Revert ⟨false, false, false, false, false, false, false, some 1⟩
      ⟨"9", [(['b'], ['v']), (['d'], ['w'])],
        some [['a', ',', 'b'], ['c', ',', 'd']]⟩).repo.backup = none ∧
    (mg8Revert ⟨false, false, false, false, false, false, false, some 1⟩
      ⟨"9", [(['b'], ['v']), (['d'], ['w'])],
        some [['a', ',', 'b'], ['c', ',', 'd']]⟩).repo.blocks.get ['d'] =
      some ['w'] := by
  have h := mg8_revert_read_error_truncates
    ⟨"9", [(['b'], ['v']), (['d'], ['w'])],
      some [['a', ',', 'b'], ['c', ',', 'd']]⟩
    [['a', ',', 'b'], ['c', ',', 'd']] 1 rfl rfl (by decide)
  refine ⟨h.1, h.2.1, h.2.2.1, ?_⟩
  rw [h.2.2.2]
  decide

/-- Claim C8: in Revert (absent scanner read errors), the version marker
is rewritten to "8" only after the backup log was exhausted with every
parsed inverse swap applied — each applied-swap event precedes the
version write — and the backup artifact is deleted only after that
version reset, in a Revert that returns success; it is never deleted
before. -/
theorem mg8_revert_commit_order (env : Env) (r : Repo)
    (hre : env.readErrorAfter = none) :
    (Event.backupDeleted ∈ (mg8Revert env r).trace →
      (mg8Revert env r).err = none ∧
      occursBefore (.versionWritten "8") .backupDeleted (mg8Revert env r).trace) ∧
    (Event.versionWritten "8" ∈ (mg8Revert env r).trace →
      ∀ lines, r.backup = some lines →
        (revertSwaps r.blocks (lines.filterMap parseLine)).2.2 = none ∧
        ∀ p ∈ lines.filterMap parseLine,
          occursBefore (.swapReverted p.1 p.2) (.versionWritten "8")
            (mg8Revert env r).trace) := by
  by_cases h1 : env.lockBusy
  · constructor <;> · intro hmem; simp [mg8Revert, h1] at hmem
  by_cases h2 : r.version = "9"
  swap
  · constructor <;> · intro hmem; simp [mg8Revert, h1, h2] at hmem
  by_cases h3 : env.storeOpenFails
  · constructor <;> · intro hmem; simp [mg8Revert, h1, h2, h3] at hmem
  cases hbk : r.backup with
  | none =>
    constructor <;> · intro hmem; simp [mg8Revert, h1, h2, h3, hbk] at hmem
  | some lines₀ =>
    by_cases h5 : env.backupOpenFails
    · constructor <;>
        · intro hmem; simp [mg8Revert, h1, h2, h3, hbk, h5] at hmem
    cases hres : (revertSwaps r.blocks (lines₀.filterMap parseLine)).2.2 with
    | some e =>
      constructor <;>
        · intro hmem
          simp [mg8Revert, h1, h2, h3, hbk, h5, hre, hres] at hmem
    | none =>
      by_cases h6 : env.versionWriteFails
      · constructor <;>
          · intro hmem
            simp [mg8Revert, h1, h2, h3, hbk, h5, hre, hres, h6] at hmem
      by_cases h7 : env.backupCloseFails
      · have hrev : mg8Revert env r =
            ⟨⟨"8", (revertSwaps r.blocks (lines₀.filterMap parseLine)).1,
              some lines₀⟩, some .closeError,
              [Event.lockAcquired, Event.versionChecked "9", Event.storeOpened,
                Event.backupOpened] ++
              (lines₀.filter (fun l => (parseLine l).isNone)).map
                Event.lineWarned ++
              (revertSwaps r.blocks (lines₀.filterMap parseLine)).2.1.map
                (fun s => Event.swapReverted s.1 s.2) ++
              [.versionWritten "8", .lockReleased]⟩ := by
          simp only [mg8Revert, h1, h2, h3, hbk, h5, hre, h6, h7, if_true,
            if_false, Bool.false_eq_true, reduceIte]
          rw [hres]
        constructor
        · intro hmem
          rw [hrev] at hmem
          simp at hmem
        · intro _ lines hlines
          injection hlines with hEq
          subst hEq
          refine ⟨hres, ?_⟩
          intro p hp
          rw [hrev]
          apply occursBefore_append
          · exact List.mem_append_right _
              (by rw [revertSwaps_applied_of_ok _ _ hres]
                  exact List.mem_map_of_mem _ hp)
          · simp
          · simp
      by_cases h8 : env.backupRemoveFails
      · have hrev : mg8Revert env r =
            ⟨⟨"8", (revertSwaps r.blocks (lines₀.filterMap parseLine)).1,
              some lines₀⟩, none,
              [Event.lockAcquired, Event.versionChecked "9", Event.storeOpened,
                Event.backupOpened] ++
              (lines₀.filter (fun l => (parseLine l).isNone)).map
                Event.lineWarned ++
              (revertSwaps r.blocks (lines₀.filterMap parseLine)).2.1.map
                (fun s => Event.swapReverted s.1 s.2) ++
              [.versionWritten "8", .lockReleased]⟩ := by
          simp only [mg8Revert, h1, h2, h3, hbk, h5, hre, h6, h7, h8, if_true,
            if_false, Bool.false_eq_true, reduceIte]
          rw [hres]
        constructor
        · intro hmem
          rw [hrev] at hmem
          simp at hmem
        · intro _ lines hlines
          injection hlines with hEq
          subst hEq
          refine ⟨hres, ?_⟩
          intro p hp
          rw [hrev]
          apply occursBefore_append
          · exact List.mem_append_right _
              (by rw [revertSwaps_applied_of_ok _ _ hres]
                  exact List.mem_map_of_mem _ hp)
          · simp
          · simp
      · have hrev : mg8Revert env r =
            ⟨⟨"8", (revertSwaps r.blocks (lines₀.filterMap parseLine)).1,
              none⟩, none,
              [Event.lockAcquired, Event.versionChecked "9", Event.storeOpened,
                Event.backupOpened] ++
              (lines₀.filter (fun l => (parseLine l).isNone)).map
                Event.lineWarned ++
              (revertSwaps r.blocks (lines₀.filterMap parseLine)).2.1.map
                (fun s => Event.swapReverted s.1 s.2) ++
              [.versionWritten "8", .backupDeleted, .lockReleased]⟩ := by
          simp only [mg8Revert, h1, h2, h3, hbk, h5, hre, h6, h7, h8, if_true,
            if_false, Bool.false_eq_true, reduceIte]
          rw [hres]
        constructor
        · intro _
          refine ⟨by rw [hrev], ?_⟩
          rw [hrev]
          have hassoc :
              [Event.lockAcquired, Event.versionChecked "9", Event.storeOpened,
                Event.backupOpened] ++
              (lines₀.filter (fun l => (parseLine l).isNone)).map
                Event.lineWarned ++
              (revertSwaps r.blocks (lines₀.filterMap parseLine)).2.1.map
                (fun s => Event.swapReverted s.1 s.2) ++
              [Event.versionWritten "8", Event.backupDeleted,
                Event.lockReleased] =
              ([Event.lockAcquired, Event.versionChecked "9", Event.storeOpened,
                Event.backupOpened] ++
              (lines₀.filter (fun l => (parseLine l).isNone)).map
                Event.lineWarned ++
              (revertSwaps r.blocks (lines₀.filterMap parseLine)).2.1.map
                (fun s => Event.swapReverted s.1 s.2) ++
              [Event.versionWritten "8"]) ++
              [Event.backupDeleted, Event.lockReleased] := by
            simp
          rw [hassoc]
          apply occursBefore_append
          · simp
          · simp
          · simp
        · intro _ lines hlines
          injection hlines with hEq
          subst hEq
          refine ⟨hres, ?_⟩
          intro p hp
          rw [hrev]
          apply occursBefore_append
          · exact List.mem_append_right _
              (by rw [revertSwaps_applied_of_ok _ _ hres]
                  exact List.mem_map_of_mem _ hp)
          · simp
          · simp

/-- Witness for C8 at a concrete one-swap Revert. -/
theorem mg8_revert_commit_order_witness :
    occursBefore (.versionWritten "8") .backupDeleted
      (mg8Revert benignEnv ⟨"9", [(['b'], ['v'])], some [['a', ',', 'b']]⟩).trace ∧
    occursBefore (.swapReverted ['a'] ['b']) (.versionWritten "8")
      (mg8Revert benignEnv ⟨"9", [(['b'], ['v'])], some [['a', ',', 'b']]⟩).trace := by
  have h := mg8_revert_commit_order benignEnv
    ⟨"9", [(['b'], ['v'])], some [['a', ',', 'b']]⟩ rfl
  exact ⟨(h.1 (by decide)).2,
    (h.2 (by decide) [['a', ',', 'b']] rfl).2 (['a'], ['b']) (by decide)⟩

theorem mg8Apply_lock_shape (f : Key → TransformResult) (env : Env) (r : Repo)
    (h : env.lockBusy = false) :
    ∃ mid, (mg8Apply f env r).trace =
      Event.lockAcquired :: (mid ++ [Event.lockReleased]) ∧
      Event.lockAcquired ∉ mid ∧ Event.lockReleased ∉ mid := by
  simp only [mg8Apply, h, Bool.false_eq_true, if_false]
  repeat' split
  all_goals first
    | (refine ⟨[], ?_⟩; simp; done)
    | (refine ⟨[.versionChecked "8"], ?_⟩; simp; done)
    | (refine ⟨[.versionChecked "8", .storeOpened], ?_⟩; simp; done)
    | (refine ⟨[Event.versionChecked "8", Event.storeOpened,
        Event.backupOpened] ++
        (runSwaps f r.blocks (r.blocks.map Prod.fst)).2.1.map
          (fun s => Event.recordWritten s.1 s.2) ++ [.backupFlushed], ?_⟩
       simp
       done)
    | (refine ⟨[Event.versionChecked "8", Event.storeOpened,
        Event.backupOpened] ++
        (runSwaps f r.blocks (r.blocks.map Prod.fst)).2.1.map
          (fun s => Event.recordWritten s.1 s.2) ++
        [.versionWritten "9", .backupFlushed], ?_⟩
       simp
       done)

theorem mg8Revert_lock_shape (env : Env) (r : Repo) (h : env.lockBusy = false) :
    ∃ mid, (mg8Revert env r).trace =
      Event.lockAcquired :: (mid ++ [Event.lockReleased]) ∧
      Event.lockAcquired ∉ mid ∧ Event.lockReleased ∉ mid := by
  by_cases h2 : r.version = "9"
  swap
  · refine ⟨[], ?_⟩
    simp [mg8Revert, h, h2]
  by_cases h3 : env.storeOpenFails
  · refine ⟨[.versionChecked "9"], ?_⟩
    simp [mg8Revert, h, h2, h3]
  cases hbk : r.backup with
  | none =>
    refine ⟨[.versionChecked "9", .storeOpened], ?_⟩
    simp [mg8Revert, h, h2, h3, hbk]
  | some lines₀ =>
    by_cases h5 : env.backupOpenFails
    · refine ⟨[.versionChecked "9", .storeOpened], ?_⟩
      simp [mg8Revert, h, h2, h3, hbk, h5]
    cases hre : env.readErrorAfter with
    | none =>
      cases hres : (revertSwaps r.blocks (lines₀.filterMap parseLine)).2.2 with
      | some e =>
        refine ⟨[Event.versionChecked "9", Event.storeOpened,
          Event.backupOpened] ++
          (lines₀.filter (fun l => (parseLine l).isNone)).map Event.lineWarned ++
          (revertSwaps r.blocks (lines₀.filterMap parseLine)).2.1.map
            (fun s => Event.swapReverted s.1 s.2), ?_⟩
        simp [mg8Revert, h, h2, h3, hbk, h5, hre, hres]
      | none =>
        by_cases h6 : env.versionWriteFails
        · refine ⟨[Event.versionChecked "9", Event.storeOpened,
            Event.backupOpened] ++
            (lines₀.filter (fun l => (parseLine l).isNone)).map
              Event.lineWarned ++
            (revertSwaps r.blocks (lines₀.filterMap parseLine)).2.1.map
              (fun s => Event.swapReverted s.1 s.2), ?_⟩
          simp [mg8Revert, h, h2, h3, hbk, h5, hre, hres, h6]
        by_cases h7 : env.backupCloseFails
        · refine ⟨[Event.versionChecked "9", Event.storeOpened,
            Event.backupOpened] ++
            (lines₀.filter (fun l => (parseLine l).isNone)).map
              Event.lineWarned ++
            (revertSwaps r.blocks (lines₀.filterMap parseLine)).2.1.map
              (fun s => Event.swapReverted s.1 s.2) ++
            [.versionWritten "8"], ?_⟩
          simp [mg8Revert, h, h2, h3, hbk, h5, hre, hres, h6, h7]
        by_cases h8 : env.backupRemoveFails
        · refine ⟨[Event.versionChecked "9", Event.storeOpened,
            Event.backupOpened] ++
            (lines₀.filter (fun l => (parseLine l).isNone)).map
              Event.lineWarned ++
            (revertSwaps r.blocks (lines₀.filterMap parseLine)).2.1.map
              (fun s => Event.swapReverted s.1 s.2) ++
            [.versionWritten "8"], ?_⟩
          simp [mg8Revert, h, h2, h3, hbk, h5, hre, hres, h6, h7, h8]
        · refine ⟨[Event.versionChecked "9", Event.storeOpened,
            Event.backupOpened] ++
            (lines₀.filter (fun l => (parseLine l).isNone)).map
              Event.lineWarned ++
            (revertSwaps r.blocks (lines₀.filterMap parseLine)).2.1.map
              (fun s => Event.swapReverted s.1 s.2) ++
            [.versionWritten "8", .backupDeleted], ?_⟩
          simp [mg8Revert, h, h2, h3, hbk, h5, hre, hres, h6, h7, h8]
    | some nr =>
      cases hres :
          (revertSwaps r.blocks ((lines₀.take nr).filterMap parseLine)).2.2 with
      | some e =>
        refine ⟨[Event.versionChecked "9", Event.storeOpened,
          Event.backupOpened] ++
          ((lines₀.take nr).filter (fun l => (parseLine l).isNone)).map
            Event.lineWarned ++
          (revertSwaps r.blocks ((lines₀.take nr).filterMap parseLine)).2.1.map
            (fun s => Event.swapReverted s.1 s.2), ?_⟩
        simp [mg8Revert, h, h2, h3, hbk, h5, hre, hres]
      | none =>
        by_cases h6 : env.versionWriteFails
        · refine ⟨[Event.versionChecked "9", Event.storeOpened,
            Event.backupOpened] ++
            ((lines₀.take nr).filter (fun l => (parseLine l).isNone)).map
              Event.lineWarned ++
            (revertSwaps r.blocks
              ((lines₀.take nr).filterMap parseLine)).2.1.map
              (fun s => Event.swapReverted s.1 s.2), ?_⟩
          simp [mg8Revert, h, h2, h3, hbk, h5, hre, hres, h6]
        by_cases h7 : env.backupCloseFails
        · refine ⟨[Event.versionChecked "9", Event.storeOpened,
            Event.backupOpened] ++
            ((lines₀.take nr).filter (fun l => (parseLine l).isNone)).map
              Event.lineWarned ++
            (revertSwaps r.blocks
              ((lines₀.take nr).filterMap parseLine)).2.1.map
              (fun s => Event.swapReverted s.1 s.2) ++
            [.versionWritten "8"], ?_⟩
          simp [mg8Revert, h, h2, h3, hbk, h5, hre, hres, h6, h7]
        by_cases h8 : env.backupRemoveFails
        · refine ⟨[Event.versionChecked "9", Event.storeOpened,
            Event.backupOpened] ++
            ((lines₀.take nr).filter (fun l => (parseLine l).isNone)).map
              Event.lineWarned ++
            (revertSwaps r.blocks
              ((lines₀.take nr).filterMap parseLine)).2.1.map
              (fun s => Event.swapReverted s.1 s.2) ++
            [.versionWritten "8"], ?_⟩
          simp [mg8Revert, h, h2, h3, hbk, h5, hre, hres, h6, h7, h8]
        · refine ⟨[Event.versionChecked "9", Event.storeOpened,
            Event.backupOpened] ++
            ((lines₀.take nr).filter (fun l => (parseLine l).isNone)).map
              Event.lineWarned ++
            (revertSwaps r.blocks
              ((lines₀.take nr).filterMap parseLine)).2.1.map
              (fun s => Event.swapReverted s.1 s.2) ++
            [.versionWritten "8", .backupDeleted], ?_⟩
          simp [mg8Revert, h, h2, h3, hbk, h5, hre, hres, h6, h7, h8]

theorem mg1_no_lock (env : Mg1Env) (r : Mg1Repo) :
    Event.lockAcquired ∉ (mg1Apply env r).trace ∧
    Event.lockAcquired ∉ (mg1Revert env r).trace := by
  constructor
  · simp only [mg1Apply]
    repeat' split
    all_goals simp
  · simp only [mg1Revert]
    repeat' split
    all_goals simp

/-- Claim C7 counterexample: the 1-to-2 migration's Apply performs its
version check without ever acquiring the repo lock, so the claim that
every Apply acquires the exclusive lock before the version check fails. -/
theorem mg1_apply_no_lock_counterexample :
    Event.versionChecked "1" ∈ (mg1Apply benignMg1Env ⟨"1", [], []⟩).trace ∧
    Event.lockAcquired ∉ (mg1Apply benignMg1Env ⟨"1", [], []⟩).trace := by
  decide

/-- Claim C7 (amended): when the repo lock is available, the 8-to-9
migration's Apply and Revert acquire it as their first action and
release it exactly once as their last action on every code path,
including all error returns, so the version check happens inside the
locked region; the 1-to-2 migration's Apply and Revert, by contrast,
never acquire the repo lock. -/
theorem migration_lock_discipline (f : Key → TransformResult) (env : Env)
    (r r₂ : Repo) (env₁ : Mg1Env) (r₁ : Mg1Repo) (h : env.lockBusy = false) :
    (∃ mid, (mg8Apply f env r).trace =
      Event.lockAcquired :: (mid ++ [Event.lockReleased]) ∧
      Event.lockAcquired ∉ mid ∧ Event.lockReleased ∉ mid) ∧
    (∃ mid, (mg8Revert env r₂).trace =
      Event.lockAcquired :: (mid ++ [Event.lockReleased]) ∧
      Event.lockAcquired ∉ mid ∧ Event.lockReleased ∉ mid) ∧
    Event.lockAcquired ∉ (mg1Apply env₁ r₁).trace ∧
    Event.lockAcquired ∉ (mg1Revert env₁ r₁).trace :=
  ⟨mg8Apply_lock_shape f env r h, mg8Revert_lock_shape env r₂ h,
    (mg1_no_lock env₁ r₁).1, (mg1_no_lock env₁ r₁).2⟩

/-- Witness for C7 (amended) at concrete repos. -/
theorem migration_lock_discipline_witness :
    (∃ mid, (mg8Apply (fun _ => TransformResult.skip) benignEnv
      ⟨"8", [], none⟩).trace =
      Event.lockAcquired :: (mid ++ [Event.lockReleased]) ∧
      Event.lockAcquired ∉ mid ∧ Event.lockReleased ∉ mid) ∧
    (∃ mid, (mg8Revert benignEnv ⟨"9", [], some []⟩).trace =
      Event.lockAcquired :: (mid ++ [Event.lockReleased]) ∧
      Event.lockAcquired ∉ mid ∧ Event.lockReleased ∉ mid) ∧
    Event.lockAcquired ∉ (mg1Apply benignMg1Env ⟨"1", [], []⟩).trace ∧
    Event.lockAcquired ∉ (mg1Revert benignMg1Env ⟨"1", [], []⟩).trace :=
  migration_lock_discipline (fun _ => TransformResult.skip) benignEnv
    ⟨"8", [], none⟩ ⟨"9", [], some []⟩ benignMg1Env ⟨"1", [], []⟩ rfl
